import Mathlib

/-!
Verification development for the cross-chain event listener (`script.py`)
and the safari sighting-probability utility (`animal_sighting.py`).

The listener's pipeline is embedded shallowly:
* `processEvent` embeds `CrossChainEventHandler.process_event`: the dedup
  membership check on `processed_events`, the destination-chain validation,
  the simulated dispatch to the action sink, and the cache update, with the
  surrounding `try/except` rendered as the `failed` outcome on a missing
  dict key.
* `processBatch` embeds the `for event in events` loop of
  `EventListener._run_cycle`.
* `fetchEvents` embeds `BridgeContractHandler.fetch_events`, whose `except`
  arms degrade a range-unavailable or timeout fault to an empty list.
* `chunkStarts` / `windowTo` / `runCycle` embed the chunked block loop
  `range(start_block, latest_block + 1, BLOCK_PROCESSING_CHUNK_SIZE)` of
  `EventListener._run_cycle`, including the checkpoint assignment
  `self.state['last_processed_block'] = to_block` after each chunk.
* `loadState` embeds `EventListener._load_state`; `saveStateOps` embeds the
  file-system operations of `EventListener._save_state`.
* `get_sighting_probability` embeds the function of the same name.
-/

/-- Outcome of handling one event: the four control-flow paths through
`CrossChainEventHandler.process_event`. -/
inductive Outcome where
  | dispatched
  | skippedDuplicate
  | skippedWrongChain
  | failed
deriving DecidableEq, Repr

/-- Decoded arguments of a `DepositInitiated` event (the `event['args']`
dict), as guaranteed by the ABI decoder. -/
structure EventArgs where
  destinationChainId : Int
  recipient : String
  amount : Nat
  nonce : Nat
deriving DecidableEq, Repr

/-- An event record as handed to `process_event`. The two keys the handler
reads from the event dict are `Option`: an absent key makes the
corresponding dict access raise, which the handler's `except` catches. -/
structure Event where
  transactionHash : Option String
  args : Option EventArgs
deriving DecidableEq, Repr

/-- One simulated call to the destination-side action sink: the
`[SIMULATION] Mint/Unlock` block of `process_event`. -/
structure SinkCall where
  recipient : String
  amount : Nat
  sourceTx : String
  nonce : Nat
deriving DecidableEq, Repr

/-- Embedding of `CrossChainEventHandler.process_event`.  In source order:
read `event['transactionHash']`; return if the hash is already in
`processed_events`; read `event['args']`; return if
`args['destinationChainId']` differs from the destination connector's chain
id; emit the simulated sink call; finally add the hash to
`processed_events`.  Returns the taken path, the new cache and the emitted
sink calls. -/
def processEvent (destChainId : Int) (cache : List String) (e : Event) :
    Outcome × List String × List SinkCall :=
  match e.transactionHash with
  | none => (Outcome.failed, cache, [])
  | some tx =>
    if tx ∈ cache then
      (Outcome.skippedDuplicate, cache, [])
    else
      match e.args with
      | none => (Outcome.failed, cache, [])
      | some a =>
        if a.destinationChainId ≠ destChainId then
          (Outcome.skippedWrongChain, cache, [])
        else
          (Outcome.dispatched, tx :: cache, [⟨a.recipient, a.amount, tx, a.nonce⟩])

/-- Embedding of the `for event in events: self.event_handler.process_event(event)`
loop of `EventListener._run_cycle`: every event of the batch is processed in
order, threading the dedup cache; outcomes and sink calls are collected. -/
def processBatch (destChainId : Int) (cache : List String) :
    List Event → List Outcome × List String × List SinkCall
  | [] => ([], cache, [])
  | e :: rest =>
    let r := processEvent destChainId cache e
    let rs := processBatch destChainId r.2.1 rest
    (r.1 :: rs.1, rs.2.1, r.2.2 ++ rs.2.2)

/-- Result of one raw log query against the chain: either decoded events, or
a retrieval fault (`BlockNotFound`, `ReadTimeout`, or any other exception
caught by `fetch_events`). -/
inductive FetchResult where
  | ok (events : List Event)
  | fault

/-- Embedding of `BridgeContractHandler.fetch_events`: a fault on the window
degrades to an empty event list (the `except` arms all `return []`). -/
def fetchEvents (fetch : Nat → Nat → FetchResult) (fromBlock toBlock : Nat) :
    List Event :=
  match fetch fromBlock toBlock with
  | FetchResult.ok evs => evs
  | FetchResult.fault => []

/-- The listener's mutable state: the persisted checkpoint
`state['last_processed_block']` and the in-memory dedup cache
`processed_events` of the event handler. -/
structure ListenerState where
  lastProcessedBlock : Nat
  cache : List String
deriving DecidableEq, Repr

/-- Embedding of `range(start_block, latest_block + 1, w)`: the lower bounds
of the chunk windows, for positive step `w`. -/
def chunkStarts (startBlock latest w : Nat) : List Nat :=
  if latest < startBlock then []
  else List.range' startBlock ((latest - startBlock) / w + 1) w

/-- Upper bound of the chunk window starting at `b`:
`min(block_num + CHUNK_SIZE - 1, latest_block)`. -/
def windowTo (latest w b : Nat) : Nat :=
  min (b + w - 1) latest

/-- Body of the chunk loop of `EventListener._run_cycle` for one chunk
start `b`: compute `to_block`, fetch the window's events (faults degrading
to an empty list), process the batch, then assign
`state['last_processed_block'] = to_block`. -/
def cycleStep (latest w : Nat) (destChainId : Int)
    (fetch : Nat → Nat → FetchResult)
    (acc : ListenerState × List SinkCall) (b : Nat) :
    ListenerState × List SinkCall :=
  let toBlock := windowTo latest w b
  let events := fetchEvents fetch b toBlock
  let r := processBatch destChainId acc.1.cache events
  (⟨toBlock, r.2.1⟩, acc.2 ++ r.2.2)

/-- Embedding of one pass of `EventListener._run_cycle`: query the latest
block, return if there is nothing new, else iterate the chunk loop over the
chunk starts.  Returns the new state and the sink calls emitted during the
cycle. -/
def runCycle (latest w : Nat) (destChainId : Int)
    (fetch : Nat → Nat → FetchResult) (st : ListenerState) :
    ListenerState × List SinkCall :=
  if latest < st.lastProcessedBlock + 1 then
    (st, [])
  else
    (chunkStarts (st.lastProcessedBlock + 1) latest w).foldl
      (cycleStep latest w destChainId fetch) (st, [])

/-- One polling cycle within a process lifetime: the cycle observes a latest
chain height and a fetch oracle, threads the listener state, and appends the
cycle's sink calls. -/
def cyclesStep (w : Nat) (destChainId : Int)
    (acc : ListenerState × List SinkCall)
    (c : Nat × (Nat → Nat → FetchResult)) : ListenerState × List SinkCall :=
  let r := runCycle c.1 w destChainId c.2 acc.1
  (r.1, acc.2 ++ r.2)

/-- A sequence of polling cycles of `EventListener.run`, each observing a
latest chain height and a fetch oracle for that cycle; states thread through
and sink calls accumulate for the process lifetime. -/
def runCycles (w : Nat) (destChainId : Int)
    (cycles : List (Nat × (Nat → Nat → FetchResult))) (st : ListenerState) :
    ListenerState × List SinkCall :=
  cycles.foldl (cyclesStep w destChainId) (st, [])

/-- The chunk windows `[from_block, to_block]` generated by the loop of
`_run_cycle` for the range `[fromBlock, toBlock]` and chunk width `w`. -/
def windows (fromBlock toBlock w : Nat) : List (Nat × Nat) :=
  (chunkStarts fromBlock toBlock w).map (fun b => (b, windowTo toBlock w b))

/-- Relation between a dedup cache before and after a processing unit and
the sink calls the unit emitted: the cache only grows, the emitted source
transaction ids are pairwise distinct, and each of them is newly recorded
(absent from the incoming cache, present in the outgoing one). -/
def CallsFresh (cacheIn cacheOut : List String) (calls : List SinkCall) :
    Prop :=
  cacheIn ⊆ cacheOut ∧
  (calls.map (fun c => c.sourceTx)).Nodup ∧
  ∀ t ∈ calls.map (fun c => c.sourceTx), t ∈ cacheOut ∧ t ∉ cacheIn

/-- Observable condition of the checkpoint file as `_load_state` sees it:
absent (`os.path.exists` false), present but unreadable or unparsable
(`IOError` or `json.JSONDecodeError`, e.g. an empty or corrupt file), or
parsed to a `last_processed_block` value. -/
inductive StateFile where
  | absent
  | unreadable
  | parsed (lastProcessedBlock : Nat)
deriving DecidableEq, Repr

/-- Whether the state file yields a stored checkpoint. -/
def StateFile.usable : StateFile → Bool
  | StateFile.parsed _ => true
  | _ => false

/-- Embedding of `EventListener._load_state`: a parsed file yields its
stored checkpoint; an absent, unreadable or unparsable file seeds the
checkpoint from the source chain's latest block number minus one. -/
def loadState (sf : StateFile) (latest : Nat) : Nat :=
  match sf with
  | StateFile.parsed n => n
  | _ => latest - 1

/-- File-system operations at the granularity `_save_state` performs them:
opening a path in truncating write mode (Python `open(path, 'w')`),
appending data to an open file, closing it, and renaming a path (the
operation an atomic write-temp-then-rename scheme would need). -/
inductive FsOp where
  | openTrunc (path : String)
  | writeAll (path : String) (data : String)
  | closeFile (path : String)
  | rename (src dst : String)
deriving DecidableEq, Repr

/-- The configured `STATE_FILE_PATH`. -/
def statePath : String := "listener_state.json"

/-- The JSON document `json.dump(self.state, f)` writes for a checkpoint. -/
def stateJson (n : Nat) : String :=
  "\x7b\"last_processed_block\": " ++ toString n ++ "\x7d"

/-- Embedding of `EventListener._save_state` as its file-system operation
trace: open `STATE_FILE_PATH` itself in truncating write mode, write the
JSON document, close.  No temporary file and no rename are involved. -/
def saveStateOps (st : ListenerState) : List FsOp :=
  [FsOp.openTrunc statePath,
   FsOp.writeAll statePath (stateJson st.lastProcessedBlock),
   FsOp.closeFile statePath]

/-- Effect of one file-system operation on the store (a partial map from
path to content): truncating open empties the file, a write appends, a
rename moves content. -/
def applyFsOp (fs : String → Option String) : FsOp → String → Option String
  | FsOp.openTrunc p => fun q => if q = p then some "" else fs q
  | FsOp.writeAll p d => fun q =>
      if q = p then some (((fs p).getD "") ++ d) else fs q
  | FsOp.closeFile _ => fs
  | FsOp.rename src dst => fun q =>
      if q = dst then fs src else if q = src then none else fs q

/-- Run a trace of file-system operations against a store. -/
def runFsOps (fs : String → Option String) (ops : List FsOp) :
    String → Option String :=
  ops.foldl applyFsOp fs

/-- A trace is an atomic replace of `p` when every interruption point leaves
`p` holding either its old content or its final content. -/
def atomicFor (fs : String → Option String) (ops : List FsOp) (p : String) :
    Prop :=
  ∀ k, runFsOps fs (ops.take k) p = fs p ∨
    runFsOps fs (ops.take k) p = runFsOps fs ops p

/-- A store whose checkpoint file holds the persisted record for
checkpoint 200. -/
def fsWith200 : String → Option String :=
  fun q => if q = statePath then some (stateJson 200) else none

/-- Base sighting probabilities of `animal_sighting.BASE_PROBABILITIES`
(percent). -/
def basePct : List (String × Nat) :=
  [("lion", 30), ("elephant", 60), ("giraffe", 55), ("zebra", 70),
   ("rhino", 15), ("leopard", 10), ("hippo", 40)]

/-- The weather conditions of `animal_sighting.WeatherCondition`. -/
inductive WeatherCondition where
  | sunny
  | rainy
  | cloudy
  | night
deriving DecidableEq, Repr

/-- Embedding of the `WeatherCondition(weather)` coercion: the enum member
whose value is the given string, or none (a `ValueError` in the source) for
any other string. -/
def weatherOfString (s : String) : Option WeatherCondition :=
  if s = "sunny" then some WeatherCondition.sunny
  else if s = "rainy" then some WeatherCondition.rainy
  else if s = "cloudy" then some WeatherCondition.cloudy
  else if s = "night" then some WeatherCondition.night
  else none

/-- The per-weather modifier tables of `animal_sighting.WEATHER_MODIFIERS`. -/
def weatherModifiers : WeatherCondition → List (String × Int)
  | WeatherCondition.sunny =>
      [("lion", -5), ("elephant", 5), ("hippo", 15), ("leopard", -8)]
  | WeatherCondition.rainy =>
      [("lion", -10), ("elephant", -5), ("rhino", 10), ("hippo", -10),
       ("zebra", -15)]
  | WeatherCondition.cloudy =>
      [("lion", 15), ("rhino", 5), ("leopard", 5)]
  | WeatherCondition.night =>
      [("lion", 25), ("rhino", 15), ("leopard", 30), ("elephant", -20),
       ("giraffe", -20)]

/-- Probability computed from a base percentage and a modifier, as the tail
of `get_sighting_probability`: clamp `base + modifier` to `[0, 100]` and
divide by 100. -/
def probWithModifier (base : Nat) (m : Int) : Rat :=
  ((max 0 (min 100 ((base : Int) + m)) : Int) : Rat) / 100

/-- Embedding of `animal_sighting.get_sighting_probability`: normalise the
animal name with `lower().strip()`, look up the base percentage (unknown
animals yield 0.0), coerce the weather argument (an invalid string yields a
neutral modifier of 0), add the animal's modifier for that weather if any,
clamp to `[0, 100]` and scale to a probability. -/
def get_sighting_probability (animal : String) (weather : String) : Rat :=
  let key := animal.toLower.trim
  match basePct.lookup key with
  | none => 0
  | some base =>
    let m : Int :=
      match weatherOfString weather with
      | none => 0
      | some w => ((weatherModifiers w).lookup key).getD 0
    probWithModifier base m

/-! ## Helper lemmas -/

/-- Case analysis of `processEvent`: either the event is not dispatched and
nothing changes, or it is dispatched, its transaction hash (fresh for the
cache) is prepended to the cache, and exactly one sink call is emitted. -/
theorem processEvent_cases (d : Int) (cache : List String) (e : Event) :
    ((processEvent d cache e).1 ≠ Outcome.dispatched ∧
      (processEvent d cache e).2.1 = cache ∧
      (processEvent d cache e).2.2 = []) ∨
    ((processEvent d cache e).1 = Outcome.dispatched ∧
      ∃ tx, e.transactionHash = some tx ∧ tx ∉ cache ∧
        (processEvent d cache e).2.1 = tx :: cache ∧
        (processEvent d cache e).2.2.map (fun c => c.sourceTx) = [tx]) := by
  rcases e with ⟨htx, hargs⟩
  rcases htx with _ | tx
  · exact Or.inl (by simp [processEvent])
  · by_cases hmem : tx ∈ cache
    · exact Or.inl (by simp [processEvent, hmem])
    · rcases hargs with _ | a
      · exact Or.inl (by simp [processEvent, hmem])
      · by_cases hd : a.destinationChainId = d
        · exact Or.inr (by simp [processEvent, hmem, hd])
        · exact Or.inl (by simp [processEvent, hmem, hd])

/-- A unit that dispatches nothing and leaves the cache alone is
`CallsFresh`. -/
theorem CallsFresh.refl_nil (cache : List String) :
    CallsFresh cache cache [] := by
  refine ⟨List.Subset.refl cache, List.nodup_nil, ?_⟩
  intro t ht
  simp at ht

/-- Sequential composition of two `CallsFresh` units. -/
theorem CallsFresh.comp {c1 c2 c3 : List String}
    {calls1 calls2 : List SinkCall} (h1 : CallsFresh c1 c2 calls1)
    (h2 : CallsFresh c2 c3 calls2) :
    CallsFresh c1 c3 (calls1 ++ calls2) := by
  obtain ⟨hsub1, hnd1, hmem1⟩ := h1
  obtain ⟨hsub2, hnd2, hmem2⟩ := h2
  refine ⟨hsub1.trans hsub2, ?_, ?_⟩
  · rw [List.map_append, List.nodup_append]
    refine ⟨hnd1, hnd2, ?_⟩
    intro t ht1 ht2
    exact (hmem2 t ht2).2 ((hmem1 t ht1).1)
  · intro t ht
    rw [List.map_append, List.mem_append] at ht
    rcases ht with ht | ht
    · exact ⟨hsub2 (hmem1 t ht).1, (hmem1 t ht).2⟩
    · exact ⟨(hmem2 t ht).1, fun hc => (hmem2 t ht).2 (hsub1 hc)⟩

/-- Processing one event is a `CallsFresh` unit. -/
theorem processEvent_callsFresh (d : Int) (cache : List String) (e : Event) :
    CallsFresh cache (processEvent d cache e).2.1
      (processEvent d cache e).2.2 := by
  rcases processEvent_cases d cache e with ⟨hnd, hc, hcalls⟩ |
    ⟨hdisp, tx, htx, hfresh, hc, hcalls⟩
  · rw [hc, hcalls]; exact CallsFresh.refl_nil cache
  · rw [hc]
    refine ⟨List.subset_cons_self tx cache, ?_, ?_⟩
    · rw [hcalls]; exact List.nodup_singleton tx
    · intro t ht
      rw [hcalls, List.mem_singleton] at ht
      subst ht
      exact ⟨List.mem_cons_self _ _, hfresh⟩

/-- Processing a whole batch is a `CallsFresh` unit. -/
theorem processBatch_callsFresh (d : Int) :
    ∀ (events : List Event) (cache : List String),
      CallsFresh cache (processBatch d cache events).2.1
        (processBatch d cache events).2.2
  | [], cache => CallsFresh.refl_nil cache
  | e :: rest, cache => by
    have h1 := processEvent_callsFresh d cache e
    have h2 := processBatch_callsFresh d rest (processEvent d cache e).2.1
    simpa [processBatch] using h1.comp h2

/-- Folding the chunk loop over any list of chunk starts appends a
`CallsFresh` batch of sink calls. -/
theorem foldl_cycleStep_callsFresh (latest w : Nat) (d : Int)
    (fetch : Nat → Nat → FetchResult) :
    ∀ (l : List Nat) (acc : ListenerState × List SinkCall),
      ∃ delta,
        (l.foldl (cycleStep latest w d fetch) acc).2 = acc.2 ++ delta ∧
        CallsFresh acc.1.cache
          (l.foldl (cycleStep latest w d fetch) acc).1.cache delta
  | [], acc => ⟨[], by simp, CallsFresh.refl_nil acc.1.cache⟩
  | b :: l, acc => by
    obtain ⟨delta, hd, hf⟩ :=
      foldl_cycleStep_callsFresh latest w d fetch l
        (cycleStep latest w d fetch acc b)
    refine ⟨(processBatch d acc.1.cache
        (fetchEvents fetch b (windowTo latest w b))).2.2 ++ delta, ?_, ?_⟩
    · rw [List.foldl_cons, hd]
      simp [cycleStep, List.append_assoc]
    · rw [List.foldl_cons]
      have h1 := processBatch_callsFresh d
        (fetchEvents fetch b (windowTo latest w b)) acc.1.cache
      exact h1.comp (by simpa [cycleStep] using hf)

/-- One polling cycle is a `CallsFresh` unit: the dedup cache only grows,
and the cycle's sink calls carry pairwise-distinct, newly recorded ids. -/
theorem runCycle_callsFresh (latest w : Nat) (d : Int)
    (fetch : Nat → Nat → FetchResult) (st : ListenerState) :
    CallsFresh st.cache (runCycle latest w d fetch st).1.cache
      (runCycle latest w d fetch st).2 := by
  unfold runCycle
  split
  · exact CallsFresh.refl_nil st.cache
  · obtain ⟨delta, hd, hf⟩ := foldl_cycleStep_callsFresh latest w d fetch
      (chunkStarts (st.lastProcessedBlock + 1) latest w) (st, [])
    rw [hd]
    simpa using hf

/-- Folding whole polling cycles also appends a `CallsFresh` batch. -/
theorem foldl_cyclesStep_callsFresh (w : Nat) (d : Int) :
    ∀ (cycles : List (Nat × (Nat → Nat → FetchResult)))
      (acc : ListenerState × List SinkCall),
      ∃ delta,
        (cycles.foldl (cyclesStep w d) acc).2 = acc.2 ++ delta ∧
        CallsFresh acc.1.cache
          (cycles.foldl (cyclesStep w d) acc).1.cache delta
  | [], acc => ⟨[], by simp, CallsFresh.refl_nil acc.1.cache⟩
  | c :: cs, acc => by
    obtain ⟨delta, hd, hf⟩ :=
      foldl_cyclesStep_callsFresh w d cs (cyclesStep w d acc c)
    refine ⟨(runCycle c.1 w d c.2 acc.1).2 ++ delta, ?_, ?_⟩
    · rw [List.foldl_cons, hd]
      simp [cyclesStep, List.append_assoc]
    · rw [List.foldl_cons]
      have h1 := runCycle_callsFresh c.1 w d c.2 acc.1
      exact h1.comp (by simpa [cyclesStep] using hf)

/-- A whole process lifetime is a `CallsFresh` unit. -/
theorem runCycles_callsFresh (w : Nat) (d : Int)
    (cycles : List (Nat × (Nat → Nat → FetchResult))) (st : ListenerState) :
    CallsFresh st.cache (runCycles w d cycles st).1.cache
      (runCycles w d cycles st).2 := by
  obtain ⟨delta, hd, hf⟩ := foldl_cyclesStep_callsFresh w d cycles (st, [])
  unfold runCycles
  rw [hd]
  simpa using hf

/-- After the chunk loop runs over a nonempty list of chunk starts, the
checkpoint holds the upper bound of the last window. -/
theorem foldl_cycleStep_snoc_lpb (latest w : Nat) (d : Int)
    (fetch : Nat → Nat → FetchResult) (l : List Nat) (b : Nat)
    (acc : ListenerState × List SinkCall) :
    ((l ++ [b]).foldl (cycleStep latest w d fetch) acc).1.lastProcessedBlock
      = windowTo latest w b := by
  rw [List.foldl_append]
  simp [cycleStep]

/-- The checkpoint after one cycle: unchanged when there is nothing new,
else exactly the observed latest block. -/
theorem runCycle_lpb (latest w : Nat) (d : Int)
    (fetch : Nat → Nat → FetchResult) (st : ListenerState) (hw : 0 < w) :
    (runCycle latest w d fetch st).1.lastProcessedBlock
      = max st.lastProcessedBlock latest := by
  unfold runCycle
  split
  · next h => simp only []; omega
  · next h =>
    simp only [chunkStarts, if_neg (by omega : ¬ latest < st.lastProcessedBlock + 1)]
    rw [List.range'_concat, foldl_cycleStep_snoc_lpb]
    unfold windowTo
    have hdm := Nat.div_add_mod (latest - (st.lastProcessedBlock + 1)) w
    have hmod := Nat.mod_lt (latest - (st.lastProcessedBlock + 1)) hw
    generalize hq : w * ((latest - (st.lastProcessedBlock + 1)) / w) = p at *
    omega

/-- Across a sequence of cycles the checkpoint never decreases. -/
theorem foldl_cyclesStep_lpb_mono (w : Nat) (d : Int) (hw : 0 < w) :
    ∀ (cycles : List (Nat × (Nat → Nat → FetchResult)))
      (acc : ListenerState × List SinkCall),
      acc.1.lastProcessedBlock
        ≤ (cycles.foldl (cyclesStep w d) acc).1.lastProcessedBlock
  | [], _ => le_refl _
  | c :: cs, acc => by
    have h2 := runCycle_lpb c.1 w d c.2 acc.1 hw
    have h1 : acc.1.lastProcessedBlock
        ≤ (cyclesStep w d acc c).1.lastProcessedBlock := by
      simp only [cyclesStep]
      rw [h2]
      exact Nat.le_max_left _ _
    exact le_trans h1 (foldl_cyclesStep_lpb_mono w d hw cs (cyclesStep w d acc c))

/-! ## Claim theorems -/

/-- C1.  The claim says a fetch fault on window `[201, 250]` leaves the
checkpoint at 200 and the window is refetched next cycle.  The code
disagrees: `fetch_events` degrades the fault to an empty list, `_run_cycle`
still assigns `last_processed_block = to_block`, so from checkpoint 200 and
latest height 250 the checkpoint ends at 250, and the retry cycle computes
no chunk at all (`chunkStarts 251 250` is empty), so `[201, 250]` is never
fetched again. -/
theorem fetch_fault_advances_checkpoint :
    (runCycle 250 100 80001 (fun _ _ => FetchResult.fault)
        ⟨200, []⟩).1.lastProcessedBlock = 250 ∧
    runCycles 100 80001
        [(250, fun _ _ => FetchResult.fault),
         (250, fun _ _ => FetchResult.fault)] ⟨200, []⟩
      = (⟨250, []⟩, []) ∧
    chunkStarts (250 + 1) 250 100 = [] := by
  refine ⟨rfl, rfl, rfl⟩

/-- C2.  The checkpoint `last_processed_block` is monotonically
non-decreasing across every sequence of polling cycles, and whenever a
cycle changes it, the new value never exceeds the latest chain height
observed at the start of that cycle. -/
theorem checkpoint_monotone_and_bounded (w : Nat) (d : Int) (hw : 0 < w) :
    (∀ (latest : Nat) (fetch : Nat → Nat → FetchResult) (st : ListenerState),
        st.lastProcessedBlock
          ≤ (runCycle latest w d fetch st).1.lastProcessedBlock ∧
        ((runCycle latest w d fetch st).1.lastProcessedBlock
            = st.lastProcessedBlock ∨
          (runCycle latest w d fetch st).1.lastProcessedBlock ≤ latest)) ∧
    ∀ (cycles : List (Nat × (Nat → Nat → FetchResult))) (st : ListenerState),
      st.lastProcessedBlock
        ≤ (runCycles w d cycles st).1.lastProcessedBlock := by
  constructor
  · intro latest fetch st
    rw [runCycle_lpb latest w d fetch st hw]
    refine ⟨Nat.le_max_left _ _, ?_⟩
    rcases Nat.le_total latest st.lastProcessedBlock with h | h
    · left; omega
    · right; omega
  · intro cycles st
    exact foldl_cyclesStep_lpb_mono w d hw cycles (st, [])

/-- Witness for C2 at a concrete cycle sequence. -/
theorem checkpoint_monotone_and_bounded_witness :
    (⟨200, []⟩ : ListenerState).lastProcessedBlock
      ≤ (runCycles 100 80001 [(250, fun _ _ => FetchResult.fault)]
          ⟨200, []⟩).1.lastProcessedBlock :=
  (checkpoint_monotone_and_bounded 100 80001 (by decide)).2
    [(250, fun _ _ => FetchResult.fault)] ⟨200, []⟩

/-- C3 counterexample.  Two deliveries with the same source transaction id
whose first delivery was not dispatched: the second delivery is not
rejected by the dedup filter (its outcome is the wrong-chain skip, not the
duplicate skip), because `process_event` records an id only after a
dispatch. -/
theorem second_delivery_not_dedup_rejected :
    (processBatch 80001 []
        [⟨some ("t1"), some ⟨99, "R", 5, 1⟩⟩,
         ⟨some ("t1"), some ⟨99, "R", 5, 1⟩⟩]).1
      = [Outcome.skippedWrongChain, Outcome.skippedWrongChain] ∧
    Outcome.skippedWrongChain ≠ Outcome.skippedDuplicate := by
  exact ⟨rfl, by decide⟩

/-- C3 amended.  Once an event's id is in the dedup cache — which happens
exactly upon dispatch — any later delivery with that id is rejected by the
dedup filter with no dispatch; and across a whole process lifetime started
with an empty cache, the source transaction ids handed to the action sink
are pairwise distinct, so no id is dispatched twice. -/
theorem no_double_dispatch_per_lifetime (w : Nat) (d : Int) (n : Nat)
    (cycles : List (Nat × (Nat → Nat → FetchResult))) :
    (∀ (cache : List String) (e : Event) (tx : String),
        e.transactionHash = some tx → tx ∈ cache →
        processEvent d cache e = (Outcome.skippedDuplicate, cache, [])) ∧
    ((runCycles w d cycles ⟨n, []⟩).2.map (fun c => c.sourceTx)).Nodup := by
  constructor
  · intro cache e tx htx hmem
    simp [processEvent, htx, hmem]
  · exact (runCycles_callsFresh w d cycles ⟨n, []⟩).2.1

/-- C5 counterexample.  A wrong-destination-chain event whose id was
already dispatched earlier in the session is skipped as a duplicate, not
with the wrong-chain outcome, because the dedup membership check precedes
the destination-chain validation in `process_event`. -/
theorem wrong_chain_after_dispatch_skipped_as_duplicate :
    (processBatch 80001 []
        [⟨some ("t1"), some ⟨80001, "R", 5, 1⟩⟩,
         ⟨some ("t1"), some ⟨99, "R", 5, 1⟩⟩]).1
      = [Outcome.dispatched, Outcome.skippedDuplicate] ∧
    (⟨99, "R", 5, 1⟩ : EventArgs).destinationChainId ≠ 80001 ∧
    Outcome.skippedDuplicate ≠ Outcome.skippedWrongChain := by
  refine ⟨rfl, by decide, by decide⟩

/-- C5 amended.  For an event whose `destinationChainId` differs from the
configured destination identity, handling performs no sink call and leaves
the dedup cache unchanged; the outcome is the wrong-chain skip when the
event's id is not already cached, and the duplicate skip when it is. -/
theorem wrong_chain_no_side_effect (d : Int) (cache : List String)
    (e : Event) (tx : String) (a : EventArgs)
    (htx : e.transactionHash = some tx) (ha : e.args = some a)
    (hd : a.destinationChainId ≠ d) :
    (tx ∉ cache →
      processEvent d cache e = (Outcome.skippedWrongChain, cache, [])) ∧
    (tx ∈ cache →
      processEvent d cache e = (Outcome.skippedDuplicate, cache, [])) := by
  constructor
  · intro hmem
    simp [processEvent, htx, ha, hmem, hd]
  · intro hmem
    simp [processEvent, htx, hmem]

/-- Witness for C5 (amended) at a concrete wrong-chain event. -/
theorem wrong_chain_no_side_effect_witness :
    (("t1" : String) ∉ ([] : List String) →
      processEvent 80001 [] ⟨some ("t1"), some ⟨99, "R", 5, 1⟩⟩
        = (Outcome.skippedWrongChain, [], [])) ∧
    (("t1" : String) ∈ ([] : List String) →
      processEvent 80001 [] ⟨some ("t1"), some ⟨99, "R", 5, 1⟩⟩
        = (Outcome.skippedDuplicate, [], [])) :=
  wrong_chain_no_side_effect 80001 [] ⟨some ("t1"), some ⟨99, "R", 5, 1⟩⟩
    ("t1") ⟨99, "R", 5, 1⟩ rfl rfl (by decide)

/-- C9.  An event's source transaction id enters the dedup cache exactly
when its dispatch action is emitted: a dispatched event prepends its fresh
id together with one sink call, and any non-dispatched event (duplicate
skip, wrong-chain skip, or failure) leaves the cache unchanged and emits
nothing, so it stays eligible for dispatch on a later delivery. -/
theorem cache_add_only_with_dispatch (d : Int) (cache : List String)
    (e : Event) :
    ((processEvent d cache e).1 = Outcome.dispatched ∧
      ∃ tx, e.transactionHash = some tx ∧ tx ∉ cache ∧
        (processEvent d cache e).2.1 = tx :: cache ∧
        (processEvent d cache e).2.2.map (fun c => c.sourceTx) = [tx]) ∨
    ((processEvent d cache e).1 ≠ Outcome.dispatched ∧
      (processEvent d cache e).2.1 = cache ∧
      (processEvent d cache e).2.2 = []) := by
  rcases processEvent_cases d cache e with h | h
  · exact Or.inr h
  · exact Or.inl h

/-- The batch loop yields one outcome per event, whatever the events. -/
theorem processBatch_length (d : Int) :
    ∀ (events : List Event) (cache : List String),
      (processBatch d cache events).1.length = events.length
  | [], _ => rfl
  | e :: rest, cache => by
    simp [processBatch, processBatch_length d rest]

/-- C8.  An exception while handling a single event is caught inside
`process_event` and recorded as that event's failure only: the batch
continues with the remaining events exactly as if the failing event had
been absent, and every event of a batch always receives an outcome. -/
theorem event_failure_does_not_abort_batch (d : Int) (cache : List String)
    (e : Event) (rest : List Event)
    (hf : (processEvent d cache e).1 = Outcome.failed) :
    (processBatch d cache (e :: rest)).1
        = Outcome.failed :: (processBatch d cache rest).1 ∧
    (processBatch d cache (e :: rest)).2 = (processBatch d cache rest).2 ∧
    ∀ (events : List Event),
      (processBatch d cache events).1.length = events.length := by
  rcases processEvent_cases d cache e with ⟨hnd, hc, hcalls⟩ |
    ⟨hdisp, _⟩
  · refine ⟨?_, ?_, fun events => processBatch_length d events cache⟩
    · simp [processBatch, hf, hc, hcalls]
    · simp [processBatch, hc, hcalls]
  · rw [hf] at hdisp
    exact absurd hdisp (by decide)

/-- Witness for C8: an event whose `args` access raises, followed by a
healthy event that is still dispatched. -/
theorem event_failure_does_not_abort_batch_witness :
    (processBatch 80001 []
        [⟨some ("t1"), none⟩, ⟨some ("t2"), some ⟨80001, "R", 5, 1⟩⟩]).1
        = Outcome.failed
            :: (processBatch 80001 []
                [⟨some ("t2"), some ⟨80001, "R", 5, 1⟩⟩]).1 ∧
    (processBatch 80001 []
        [⟨some ("t1"), none⟩, ⟨some ("t2"), some ⟨80001, "R", 5, 1⟩⟩]).2
        = (processBatch 80001 []
            [⟨some ("t2"), some ⟨80001, "R", 5, 1⟩⟩]).2 ∧
    ∀ (events : List Event),
      (processBatch 80001 [] events).1.length = events.length :=
  event_failure_does_not_abort_batch 80001 [] ⟨some ("t1"), none⟩
    [⟨some ("t2"), some ⟨80001, "R", 5, 1⟩⟩] rfl

/-- C7.  When the checkpoint file is absent, empty or corrupt, `_load_state`
seeds the checkpoint from the current chain height minus one, so the next
cycle starts processing at the current height. -/
theorem seed_checkpoint_on_unusable_state (sf : StateFile) (latest : Nat)
    (hsf : sf.usable = false) (hl : 0 < latest) :
    loadState sf latest = latest - 1 ∧ loadState sf latest + 1 = latest := by
  cases sf with
  | absent =>
    refine ⟨rfl, ?_⟩
    show latest - 1 + 1 = latest
    omega
  | unreadable =>
    refine ⟨rfl, ?_⟩
    show latest - 1 + 1 = latest
    omega
  | parsed n => simp [StateFile.usable] at hsf

/-- Witness for C7: no state file and a current height of 1000 seed the
checkpoint to 999. -/
theorem seed_checkpoint_on_unusable_state_witness :
    loadState StateFile.absent 1000 = 1000 - 1 ∧
    loadState StateFile.absent 1000 + 1 = 1000 :=
  seed_checkpoint_on_unusable_state StateFile.absent 1000 rfl (by decide)

/-- C6.  `_save_state` opens the checkpoint file itself in truncating write
mode and writes the new record in place, with no temporary file and no
rename: interrupting the trace right after the truncating open leaves the
file holding neither the old record (checkpoint 200) nor the new one
(checkpoint 250), so the save is not an atomic replace. -/
theorem save_state_not_atomic :
    runFsOps fsWith200 ((saveStateOps ⟨250, []⟩).take 1) statePath
        = some ("") ∧
    fsWith200 statePath = some (stateJson 200) ∧
    runFsOps fsWith200 (saveStateOps ⟨250, []⟩) statePath
        = some (stateJson 250) ∧
    stateJson 200 ≠ "" ∧
    stateJson 250 ≠ "" ∧
    (∀ (src dst : String), FsOp.rename src dst ∉ saveStateOps ⟨250, []⟩) ∧
    ¬ atomicFor fsWith200 (saveStateOps ⟨250, []⟩) statePath := by
  refine ⟨rfl, rfl, rfl, by decide, by decide, ?_, ?_⟩
  · intro src dst h
    simp [saveStateOps] at h
  · intro h
    rcases h 1 with h1 | h1 <;> exact absurd h1 (by decide)

/-- Unfolding of `get_sighting_probability` into its lookup and modifier
structure. -/
theorem get_sighting_probability_eq (animal weather : String) :
    get_sighting_probability animal weather
      = match basePct.lookup (animal.toLower.trim) with
        | none => 0
        | some base =>
          probWithModifier base
            (match weatherOfString weather with
             | none => 0
             | some w =>
               ((weatherModifiers w).lookup (animal.toLower.trim)).getD 0) :=
  rfl

/-- The clamp-and-scale tail of `get_sighting_probability` always lands in
the unit interval. -/
theorem probWithModifier_bounds (base : Nat) (m : Int) :
    0 ≤ probWithModifier base m ∧ probWithModifier base m ≤ 1 := by
  unfold probWithModifier
  constructor
  · apply div_nonneg _ (by norm_num)
    have h0 : (0 : Int) ≤ max 0 (min 100 ((base : Int) + m)) :=
      le_max_left 0 _
    exact_mod_cast h0
  · rw [div_le_one (by norm_num : (0 : Rat) < 100)]
    have h1 : max 0 (min 100 ((base : Int) + m)) ≤ 100 :=
      max_le (by norm_num) (min_le_left _ _)
    exact_mod_cast h1

/-- C10.  For every animal-name string and weather argument the sighting
probability lies in `[0, 1]`; an animal absent from the base table yields
exactly 0 whatever the weather; and an invalid weather string is treated as
a neutral modifier of 0. -/
theorem sighting_probability_props (animal weather : String) :
    (0 ≤ get_sighting_probability animal weather ∧
      get_sighting_probability animal weather ≤ 1) ∧
    (basePct.lookup (animal.toLower.trim) = none →
      get_sighting_probability animal weather = 0) ∧
    (weatherOfString weather = none →
      get_sighting_probability animal weather
        = match basePct.lookup (animal.toLower.trim) with
          | none => 0
          | some base => probWithModifier base 0) := by
  refine ⟨?_, ?_, ?_⟩
  · rw [get_sighting_probability_eq]
    cases hb : basePct.lookup (animal.toLower.trim) with
    | none => norm_num
    | some base => exact probWithModifier_bounds base _
  · intro h
    rw [get_sighting_probability_eq, h]
  · intro h
    rw [get_sighting_probability_eq, h]

/-- C4.  The chunk loop of `_run_cycle` partitions `[fromBlock, toBlock]`
exactly: the generated windows cover precisely the heights of the range,
each window spans at most `w` heights, consecutive windows are contiguous,
and in the spec's scenario (checkpoint 100, latest 250, width 100) the
windows are `[101, 200]` and `[201, 250]` and the cycle ends with
checkpoint 250. -/
theorem chunking_windows_exact (fromBlock toBlock w : Nat)
    (hft : fromBlock ≤ toBlock) (hw : 0 < w) :
    (∀ x, (∃ p ∈ windows fromBlock toBlock w, p.1 ≤ x ∧ x ≤ p.2)
        ↔ (fromBlock ≤ x ∧ x ≤ toBlock)) ∧
    (∀ p ∈ windows fromBlock toBlock w, p.2 + 1 - p.1 ≤ w) ∧
    (∀ (i : Nat) (hi : i + 1 < (windows fromBlock toBlock w).length),
        ((windows fromBlock toBlock w)[i]).2 + 1
          = ((windows fromBlock toBlock w)[i + 1]).1) ∧
    windows 101 250 100 = [(101, 200), (201, 250)] ∧
    ∀ (d : Int) (fetch : Nat → Nat → FetchResult) (cache : List String),
      (runCycle 250 100 d fetch ⟨100, cache⟩).1.lastProcessedBlock = 250 := by
  have hnotlt : ¬ toBlock < fromBlock := not_lt.mpr hft
  have hlen : (windows fromBlock toBlock w).length
      = (toBlock - fromBlock) / w + 1 := by
    simp [windows, chunkStarts, if_neg hnotlt]
  refine ⟨?_, ?_, ?_, by decide, ?_⟩
  · intro x
    constructor
    · rintro ⟨p, hp, hx1, hx2⟩
      simp only [windows, List.mem_map] at hp
      obtain ⟨b, hb, rfl⟩ := hp
      simp only [chunkStarts, if_neg hnotlt, List.mem_range'] at hb
      obtain ⟨i, hilt, rfl⟩ := hb
      refine ⟨le_trans (Nat.le_add_right _ _) hx1, ?_⟩
      exact le_trans hx2 (min_le_right _ _)
    · rintro ⟨hfx, hxt⟩
      have hdiv : (x - fromBlock) / w ≤ (toBlock - fromBlock) / w :=
        Nat.div_le_div_right (Nat.sub_le_sub_right hxt fromBlock)
      have hdm := Nat.div_add_mod (x - fromBlock) w
      have hmod := Nat.mod_lt (x - fromBlock) hw
      refine ⟨(fromBlock + w * ((x - fromBlock) / w),
          windowTo toBlock w (fromBlock + w * ((x - fromBlock) / w))),
          ?_, ?_, ?_⟩
      · simp only [windows, List.mem_map]
        refine ⟨fromBlock + w * ((x - fromBlock) / w), ?_, rfl⟩
        simp only [chunkStarts, if_neg hnotlt, List.mem_range']
        exact ⟨(x - fromBlock) / w, by omega, rfl⟩
      · show fromBlock + w * ((x - fromBlock) / w) ≤ x
        generalize hq : w * ((x - fromBlock) / w) = q at hdm ⊢
        omega
      · show x ≤ min (fromBlock + w * ((x - fromBlock) / w) + w - 1) toBlock
        generalize hq : w * ((x - fromBlock) / w) = q at hdm ⊢
        omega
  · intro p hp
    simp only [windows, List.mem_map] at hp
    obtain ⟨b, hb, rfl⟩ := hp
    show windowTo toBlock w b + 1 - b ≤ w
    simp only [windowTo]
    omega
  · intro i hi
    rw [hlen] at hi
    simp only [windows, chunkStarts, if_neg hnotlt, List.getElem_map,
      List.getElem_range']
    show windowTo toBlock w (fromBlock + w * i) + 1 = fromBlock + w * (i + 1)
    have hle : (i + 1) * w ≤ toBlock - fromBlock :=
      (Nat.le_div_iff_mul_le hw).mp (by omega)
    have hexp : w * (i + 1) = w * i + w := by ring
    have hexp2 : (i + 1) * w = w * i + w := by ring
    rw [hexp2] at hle
    rw [hexp]
    simp only [windowTo]
    generalize hq : w * i = q at hle ⊢
    omega
  · intro d fetch cache
    have h := runCycle_lpb 250 100 d fetch ⟨100, cache⟩ (by decide)
    rw [h]
    show max (100 : Nat) 250 = 250
    omega

/-- Witness for C4 at the spec's scenario. -/
theorem chunking_windows_exact_witness :
    windows 101 250 100 = [(101, 200), (201, 250)] :=
  (chunking_windows_exact 101 250 100 (by decide) (by decide)).2.2.2.1
